import Mathlib

/-!
Shallow embedding of the `http-negotiator` content-negotiation library
(`src/index.js`) and proofs about it.

Modelling conventions:
 - JS numbers are modelled as `ℚ`.  All quality values handled by the library
   are produced by `parseFloat` on decimal strings or are decimal literals in
   the source, so rationals are an exact model of every computation performed
   here.
 - JS strings are `String`; the handful of string primitives the source uses
   (`split` on a single character, `replace(/ +/g, '')`, `trim`,
   `toLowerCase`, `indexOf(':')`/`substr`) are defined structurally on the
   character list below.
 - A JS `Map` is an insertion-ordered association list (`JSMap`): `set`
   overwrites in place keeping the position of an existing key and appends a
   new key at the end, exactly like `Map.prototype.set`.
 - `ValueTuple.value` is `Option String`: the media-range helpers index into
   the result of `value.split('/')`, which in JS yields `undefined` (here
   `none`) for a missing component.
 - The in-place mutation performed by `performTypeNegotiation`'s default
   wildcard-weight transform (index.js lines 367-381 call
   `props.set('q', ...)` on the shared properties map of a client tuple) is
   modelled by threading the client tuple list through the negotiation loop as
   explicit state; `performTypeNegotiationFull` returns both the result and
   the final state of the caller's client list.
-/

/-- A JS parameter value: parameters are stored as raw strings except `q`,
which `parseValueTuple` runs through `parseFloat` (`num` for a parsed float,
`nan` when `parseFloat` fails).  `undef` models a parameter that was set to JS
`undefined` (a `;key` segment with no `=`). -/
inductive PValue
  | str (s : String)
  | num (x : ℚ)
  | nan
  | undef
deriving DecidableEq

/-- Model of a JS `Map` with string keys: an insertion-ordered association
list. -/
abbrev JSMap (β : Type) : Type := List (String × β)

/-- `Map.prototype.get`: the value stored for `key`, if any. -/
def JSMap.get {β : Type} : JSMap β → String → Option β
  | [], _ => none
  | (k, v) :: rest, key => if k = key then some v else JSMap.get rest key

/-- `Map.prototype.has`. -/
def JSMap.has {β : Type} (m : JSMap β) (key : String) : Bool :=
  (JSMap.get m key).isSome

/-- `Map.prototype.set`: overwrite in place if the key is present (keeping its
position), otherwise append. -/
def JSMap.set {β : Type} : JSMap β → String → β → JSMap β
  | [], key, v => [(key, v)]
  | (k, w) :: rest, key, v =>
      if k = key then (k, v) :: rest else (k, w) :: JSMap.set rest key v

/-- Properties of a value tuple (index.js `ValueTuple.properties`). -/
abbrev PropMap : Type := JSMap PValue

/-- The central data type of the library (index.js lines 24-34).  `value` is
`Option String` because the media-range code reads components of
`value.split('/')` that may be JS `undefined`. -/
structure ValueTuple where
  value : Option String
  properties : PropMap
deriving DecidableEq

/-- Reading a `q` property slot as a number.  In every tuple the library
builds, a present `q` is a parsed float (index.js lines 229-234 and the
`q: 1`/`0.01`/`0.02` literals), so only the `num` and missing cases are ever
exercised; the remaining constructors are mapped to `0`. -/
def qOfProp : Option PValue → ℚ
  | some (PValue.num x) => x
  | some (PValue.str _) => 0
  | some PValue.nan => 0
  | some PValue.undef => 0
  | none => 1

/-- The derived `q` accessor (index.js lines 30-33): the stored `q` property,
defaulting to `1` when unspecified. -/
def ValueTuple.q (vt : ValueTuple) : ℚ :=
  qOfProp (JSMap.get vt.properties "q")

/-! ## String primitives used by the source -/

/-- `String.prototype.split(sep)` for a one-character separator, on the
character list. -/
def splitCharList (sep : Char) : List Char → List (List Char)
  | [] => [[]]
  | c :: rest =>
      if c = sep then [] :: splitCharList sep rest
      else
        match splitCharList sep rest with
        | [] => [[c]]
        | piece :: pieces => (c :: piece) :: pieces

/-- `s.split(sep)` for a one-character separator. -/
def jsSplitChar (s : String) (sep : Char) : List String :=
  (splitCharList sep s.data).map (fun cs => String.mk cs)

/-- `s.replace(/ +/g, '')` (index.js line 205): removes every space
character.  Note the source regexp removes only the space character `' '`,
not tabs or other whitespace. -/
def jsRemoveSpaces (s : String) : String :=
  String.mk (s.data.filter (fun c => c ≠ ' '))

/-- `String.prototype.trim`. -/
def jsTrim (s : String) : String :=
  String.mk (((s.data.dropWhile Char.isWhitespace).reverse.dropWhile
    Char.isWhitespace).reverse)

/-- `String.prototype.toLowerCase` (ASCII, which is all the source needs). -/
def jsToLower (s : String) : String :=
  String.mk (s.data.map Char.toLower)

/-- `l.indexOf(':')` combined with the two `substr` calls of `typemapParse`
(index.js lines 531-538): `none` when the line has no colon, otherwise the
text before and after the first colon. -/
def splitFirstColon (s : String) : Option (String × String) :=
  match s.data.span (fun c => c ≠ ':') with
  | (_, []) => none
  | (before, _ :: after) => some (String.mk before, String.mk after)

/-! ## Matchers and comparators -/

/-- `parameterMatch` (index.js lines 68-98): every non-`q` server parameter
must be absent on the client or equal to the client's value, and every
non-`q` client parameter key must exist on the server. -/
def parameterMatch (st ct : ValueTuple) : Bool :=
  (st.properties.all (fun p =>
      p.1 == "q" || !(JSMap.has ct.properties p.1) ||
        JSMap.get ct.properties p.1 == some p.2)) &&
  (ct.properties.all (fun p => p.1 == "q" || JSMap.has st.properties p.1))

/-- Number of non-`q` keys of `m` that also occur in `sp` (index.js lines
110-111). -/
def sharedKeyCount (sp m : PropMap) : ℕ :=
  ((m.map Prod.fst).filter (fun k => k != "q" && JSMap.has sp k)).length

/-- `parameterCompare` (index.js lines 101-117): more shared non-`q` keys with
the server wins; ties fall back to `q` descending. -/
def parameterCompare (st at' bt : ValueTuple) : ℚ :=
  if sharedKeyCount st.properties at'.properties ≠
      sharedKeyCount st.properties bt.properties then
    (sharedKeyCount st.properties bt.properties : ℚ) -
      (sharedKeyCount st.properties at'.properties : ℚ)
  else bt.q - at'.q

/-- `wildcardValueMatch` (index.js lines 127-133). -/
def wildcardValueMatch (st ct : ValueTuple) : Bool :=
  if st.value ≠ ct.value ∧ ct.value ≠ some "*" then false
  else parameterMatch st ct

/-- `wildcardValueCompare` (index.js lines 136-148). -/
def wildcardValueCompare (st at' bt : ValueTuple) : ℚ :=
  if at'.value = some "*" ∨ bt.value = some "*" then
    if at'.value = some "*" ∧ bt.value = some "*" then parameterCompare st at' bt
    else if at'.value = some "*" then 1
    else -1
  else parameterCompare st at' bt

/-- Component `i` of `v.split('/')`; `none` both for a missing component (JS
`undefined`) and for an `undefined` value itself (on which JS would throw; the
library never reaches that case). -/
def valComponent (v : Option String) (i : ℕ) : Option String :=
  match v with
  | none => none
  | some s => (jsSplitChar s '/').get? i

/-- `mediaRangeValueMatch` (index.js lines 159-169). -/
def mediaRangeValueMatch (st ct : ValueTuple) : Bool :=
  wildcardValueMatch ⟨valComponent st.value 0, []⟩ ⟨valComponent ct.value 0, []⟩ &&
  wildcardValueMatch ⟨valComponent st.value 1, st.properties⟩
    ⟨valComponent ct.value 1, ct.properties⟩

/-- `mediaRangeValueCompare` (index.js lines 172-189).  Note the source passes
the full server value (not its type component) to the type-level comparison;
that tuple only contributes its empty property map there. -/
def mediaRangeValueCompare (st at' bt : ValueTuple) : ℚ :=
  if wildcardValueCompare ⟨st.value, []⟩ ⟨valComponent at'.value 0, []⟩
      ⟨valComponent bt.value 0, []⟩ ≠ 0 then
    wildcardValueCompare ⟨st.value, []⟩ ⟨valComponent at'.value 0, []⟩
      ⟨valComponent bt.value 0, []⟩
  else
    wildcardValueCompare st ⟨valComponent at'.value 1, at'.properties⟩
      ⟨valComponent bt.value 1, bt.properties⟩

/-! ## Tokenizer -/

/-- `splitHeaderValue` (index.js lines 204-206): strip spaces, split on
commas. -/
def splitHeaderValue (header : String) : List String :=
  jsSplitChar (jsRemoveSpaces header) ','

/-- Value of a digit run read left to right. -/
def digitsToNat (cs : List Char) : ℕ :=
  cs.foldl (fun a c => a * 10 + (c.toNat - 48)) 0

/-- Fractional digits after the decimal point, if present. -/
def jsParseFloatFrac : List Char → List Char
  | '.' :: rest => rest.takeWhile Char.isDigit
  | _ => []

/-- Magnitude parsing for `jsParseFloat`. -/
def jsParseFloatMag (cs : List Char) : Option ℚ :=
  if (cs.takeWhile Char.isDigit).isEmpty ∧
      (jsParseFloatFrac (cs.dropWhile Char.isDigit)).isEmpty then none
  else some
    ((digitsToNat (cs.takeWhile Char.isDigit) : ℚ) +
      (digitsToNat (jsParseFloatFrac (cs.dropWhile Char.isDigit)) : ℚ) /
        (10 : ℚ) ^ (jsParseFloatFrac (cs.dropWhile Char.isDigit)).length)

/-- Sign handling for `jsParseFloat`. -/
def jsParseFloatSigned : List Char → Option ℚ
  | '-' :: rest => (jsParseFloatMag rest).map (fun x => -x)
  | '+' :: rest => jsParseFloatMag rest
  | cs => jsParseFloatMag cs

/-- `parseFloat` as used on `q` values: optional leading whitespace and sign,
then `digits[.digits]`; trailing junk is ignored; `none` models `NaN`.
(Exponent notation is not modelled; the library only feeds it plain decimal
`q` strings.) -/
def jsParseFloat (s : String) : Option ℚ :=
  jsParseFloatSigned (s.data.dropWhile Char.isWhitespace)

/-- Parameter value stored for one `;`-separated attribute segment (index.js
lines 229-234): split on `=` (limit 2); a `q` value is run through
`parseFloat`, everything else is stored as the raw string (JS `undefined`
when the segment has no `=`). -/
def parseParamSegment (params : PropMap) (av : String) : PropMap :=
  match (jsSplitChar av '=').take 2 with
  | [] => params
  | key :: rest =>
      if key = "q" then
        params.set key (match rest.head? with
          | none => PValue.nan
          | some raw => match jsParseFloat raw with
            | none => PValue.nan
            | some x => PValue.num x)
      else
        params.set key (match rest.head? with
          | none => PValue.undef
          | some raw => PValue.str raw)

/-- `parseValueTuple` (index.js lines 219-239). -/
def parseValueTuple (v : String) : ValueTuple :=
  ⟨some ((jsSplitChar v ';').headD ""),
    ((jsSplitChar v ';').tail).foldl parseParamSegment []⟩

/-! ## Generic negotiation engine -/

/-- One entry of the list produced by `performNegotiation` (index.js line
270). -/
structure NegotiationResult where
  server : ValueTuple
  client : ValueTuple
  score : ℚ
deriving DecidableEq

/-- Order of the final `scores.sort((a, b) => b.score - a.score)` (index.js
line 273): descending by score. -/
def byScoreDesc (a b : NegotiationResult) : Prop :=
  b.score ≤ a.score

instance : DecidableRel byScoreDesc := fun a b =>
  inferInstanceAs (Decidable (b.score ≤ a.score))

/-- Order used to sort the matching client values with a comparator (index.js
line 262). -/
def prefOrder (cmp : ValueTuple → ValueTuple → ValueTuple → ℚ) (sv : ValueTuple)
    (a b : ValueTuple) : Prop :=
  cmp sv a b ≤ 0

instance (cmp : ValueTuple → ValueTuple → ValueTuple → ℚ) (sv : ValueTuple) :
    DecidableRel (prefOrder cmp sv) := fun a b =>
  inferInstanceAs (Decidable (cmp sv a b ≤ 0))

/-- `matchingCv.sort((a, b) => comparator(sv, a, b))[0]` (index.js lines
261-262): the first element of the stably sorted matching list. -/
def bestClientValue (cmp : ValueTuple → ValueTuple → ValueTuple → ℚ)
    (sv : ValueTuple) (matchingCv : List ValueTuple) : Option ValueTuple :=
  (List.insertionSort (prefOrder cmp sv) matchingCv).head?

/-- Emit step of the server loop (index.js lines 264-270): drop a
non-positive score, otherwise push `{server, client, score}`. -/
def serverStepEmit (scores : List NegotiationResult) (sv : ValueTuple) :
    Option ValueTuple → List NegotiationResult
  | none => scores
  | some cv =>
      if cv.q * sv.q ≤ 0 then scores
      else scores ++ [⟨sv, cv, cv.q * sv.q⟩]

/-- Body of the `serverValues.forEach` loop of `performNegotiation` (index.js
lines 253-271). -/
def serverStep (matcher : ValueTuple → ValueTuple → Bool)
    (cmp : ValueTuple → ValueTuple → ValueTuple → ℚ)
    (clientValues : List ValueTuple) (scores : List NegotiationResult)
    (sv : ValueTuple) : List NegotiationResult :=
  serverStepEmit scores sv
    (bestClientValue cmp sv (clientValues.filter (fun cv => matcher sv cv)))

/-- The contribution of a single server value, as an `Option` (used to state
what `performNegotiation` accumulates). -/
def serverResult (matcher : ValueTuple → ValueTuple → Bool)
    (cmp : ValueTuple → ValueTuple → ValueTuple → ℚ)
    (clientValues : List ValueTuple) (sv : ValueTuple) :
    Option NegotiationResult :=
  match bestClientValue cmp sv (clientValues.filter (fun cv => matcher sv cv)) with
  | none => none
  | some cv =>
      if cv.q * sv.q ≤ 0 then none
      else some ⟨sv, cv, cv.q * sv.q⟩

/-- `performNegotiation` (index.js lines 251-274): accumulate one scored
result per server value whose best matching client scores positively, then
stably sort descending by score. -/
def performNegotiation (clientValues serverValues : List ValueTuple)
    (matcher : ValueTuple → ValueTuple → Bool)
    (cmp : ValueTuple → ValueTuple → ValueTuple → ℚ) : List NegotiationResult :=
  List.insertionSort byScoreDesc
    (serverValues.foldl (serverStep matcher cmp clientValues) [])

/-! ## Encoding negotiation (index.js lines 287-335) -/

/-- The implicit identity tuple (index.js line 288). -/
def IDENTITY : ValueTuple := ⟨some "identity", [("q", PValue.num 1)]⟩

/-- `Set.prototype.has` on an optional string (JS `undefined` is never in the
whitelists used here). -/
def wlHas (wl : List String) : Option String → Bool
  | some s => wl.contains s
  | none => false

/-- `clientValues.some(v => wildcardValueMatch(IDENTITY, v))` (index.js lines
289-291). -/
def hasIdentityIn (clientValues : List ValueTuple) : Bool :=
  clientValues.any (fun v => wildcardValueMatch IDENTITY v)

/-- Filter applied to the server values when the client list is empty
(index.js lines 304-308). -/
def encodingClientFilter (whitelist : Option (List String)) (v : ValueTuple) :
    Bool :=
  match whitelist with
  | none => true
  | some wl => v.value == some "identity" || wlHas wl v.value

/-- The effective client list of `performEncodingNegotiation` (index.js lines
303-309). -/
def encodingClients (clientValues serverValues : List ValueTuple)
    (whitelist : Option (List String)) : List ValueTuple :=
  if clientValues.isEmpty then
    serverValues.filter (encodingClientFilter whitelist)
  else clientValues

/-- First negotiation pass of `performEncodingNegotiation` (index.js lines
311-315). -/
def encodingFirstPass (clientValues serverValues : List ValueTuple)
    (whitelist : Option (List String)) : List NegotiationResult :=
  performNegotiation (encodingClients clientValues serverValues whitelist)
    serverValues wildcardValueMatch wildcardValueCompare

/-- Result list of `performEncodingNegotiation` after the optional identity
retry (index.js lines 326-332): the retry with `[IDENTITY]` alone runs only
when the first pass produced nothing and no client value matched identity. -/
def encodingNegotiated (clientValues serverValues : List ValueTuple)
    (whitelist : Option (List String)) : List NegotiationResult :=
  if (encodingFirstPass clientValues serverValues whitelist).isEmpty ∧
      hasIdentityIn clientValues = false then
    performNegotiation [IDENTITY] serverValues wildcardValueMatch
      wildcardValueCompare
  else encodingFirstPass clientValues serverValues whitelist

/-- `performEncodingNegotiation` (index.js lines 287-335): the server tuple of
the top-ranked result, or `null`. -/
def performEncodingNegotiation (clientValues serverValues : List ValueTuple)
    (whitelist : Option (List String)) : Option ValueTuple :=
  (encodingNegotiated clientValues serverValues whitelist).head?.map
    NegotiationResult.server

/-! ## Type negotiation (index.js lines 347-409)

The default wildcard-weight transform closure (lines 367-381) mutates the
shared properties map of the client tuple it is applied to (`props.set('q',
...)` on `vt.properties`).  The comparator wrapping it is invoked by
`Array.prototype.sort`, which calls it on every element of the matching list
whenever that list has at least two elements.  The negotiation loop is
therefore modelled with the client list as explicit state: whenever a server
value has two or more matching clients (and the transform is active), every
matching client tuple in the list is replaced by its transformed version, and
scoring reads `q` from that state. -/

/-- The transform closure of `performTypeNegotiation` (index.js lines
367-381): a tuple without an explicit `q` whose type or subtype component is
`*` gets `q = 0.01` (type wildcard) or `q = 0.02` (subtype wildcard) written
into its properties map. -/
def transform (vt : ValueTuple) : ValueTuple :=
  if vt.properties.has "q" then vt
  else if valComponent vt.value 0 ≠ some "*" ∧ valComponent vt.value 1 ≠ some "*" then vt
  else ⟨vt.value,
    vt.properties.set "q"
      (PValue.num (if valComponent vt.value 0 = some "*" then 0.01 else 0.02))⟩

/-- The comparator passed to the negotiation engine by
`performTypeNegotiation` (index.js lines 365-385): plain
`mediaRangeValueCompare`, or the transform-wrapped version when no client
value carries an explicit `q`. -/
def typedComparator (useT : Bool) (sv a b : ValueTuple) : ℚ :=
  if useT then mediaRangeValueCompare sv (transform a) (transform b)
  else mediaRangeValueCompare sv a b

/-- In-place mutation of the client list caused by sorting the matching
clients for server value `sv`: every matching tuple is transformed. -/
def mutateClients (sv : ValueTuple) (clients : List ValueTuple) :
    List ValueTuple :=
  clients.map (fun cv => if mediaRangeValueMatch sv cv then transform cv else cv)

/-- Emit step of the type-negotiation server loop (index.js lines 264-270 as
invoked from line 387), also carrying the client-list state. -/
def typeStepEmit (scores : List NegotiationResult) (clients : List ValueTuple)
    (sv : ValueTuple) :
    Option ValueTuple → List NegotiationResult × List ValueTuple
  | none => (scores, clients)
  | some cv =>
      if cv.q * sv.q ≤ 0 then (scores, clients)
      else (scores ++ [⟨sv, cv, cv.q * sv.q⟩], clients)

/-- Scoring part of the type-negotiation server loop after mutation. -/
def typeStepScore (useT : Bool) (scores : List NegotiationResult)
    (clients : List ValueTuple) (sv : ValueTuple)
    (matchingCv : List ValueTuple) : List NegotiationResult × List ValueTuple :=
  typeStepEmit scores clients sv (bestClientValue (typedComparator useT) sv matchingCv)

/-- Core of one iteration of the type-negotiation server loop: skip a server
value with no matching client; with at least two matching clients and the
transform active, the sort's comparator calls mutate every matching client
tuple in place before the best one is picked and scored. -/
def typeStepCore (useT : Bool) (scores : List NegotiationResult)
    (clients : List ValueTuple) (sv : ValueTuple)
    (matchingCv : List ValueTuple) : List NegotiationResult × List ValueTuple :=
  if matchingCv.isEmpty then (scores, clients)
  else if useT ∧ 2 ≤ matchingCv.length then
    typeStepScore useT scores (mutateClients sv clients) sv (matchingCv.map transform)
  else typeStepScore useT scores clients sv matchingCv

/-- One iteration of the type-negotiation server loop. -/
def typeStep (useT : Bool) (st : List NegotiationResult × List ValueTuple)
    (sv : ValueTuple) : List NegotiationResult × List ValueTuple :=
  typeStepCore useT st.1 st.2 sv
    (st.2.filter (fun cv => mediaRangeValueMatch sv cv))

/-- `performNegotiation` as invoked by `performTypeNegotiation` (index.js line
387), with the mutable client list made explicit; returns the sorted result
list together with the final state of the client tuples. -/
def performNegotiationTyped (clientValues serverValues : List ValueTuple)
    (useT : Bool) : List NegotiationResult × List ValueTuple :=
  (List.insertionSort byScoreDesc
      (serverValues.foldl (typeStep useT) ([], clientValues)).1,
    (serverValues.foldl (typeStep useT) ([], clientValues)).2)

/-- The effective client list of `performTypeNegotiation` (index.js lines
352-354). -/
def typeClientBase (clientValues : List ValueTuple) : List ValueTuple :=
  if clientValues.isEmpty then [⟨some "*/*", []⟩] else clientValues

/-- Whether the default wildcard-weight transform is active (index.js line
366): no client value carries an explicit `q`. -/
def typeUseTransform (clientValues : List ValueTuple) : Bool :=
  !(typeClientBase clientValues).any (fun vt => vt.properties.has "q")

/-- Ranked results and final client state of `performTypeNegotiation` before
whitelist filtering. -/
def typeNegotiated (clientValues serverValues : List ValueTuple) :
    List NegotiationResult × List ValueTuple :=
  performNegotiationTyped (typeClientBase clientValues) serverValues
    (typeUseTransform clientValues)

/-- Whitelist filter predicate (index.js lines 398-405): a result whose
client value has no wildcard component always survives; a wildcard-derived
result survives only if the server value is whitelisted. -/
def typeWhitelistKeep (wl : List String) (nv : NegotiationResult) : Bool :=
  if valComponent nv.client.value 0 ≠ some "*" ∧
      valComponent nv.client.value 1 ≠ some "*" then true
  else wlHas wl nv.server.value

/-- Ranked results of `performTypeNegotiation` after the optional whitelist
filter (index.js lines 397-406). -/
def typeFiltered (clientValues serverValues : List ValueTuple)
    (whitelist : Option (List String)) : List NegotiationResult :=
  match whitelist with
  | none => (typeNegotiated clientValues serverValues).1
  | some wl =>
      (typeNegotiated clientValues serverValues).1.filter (typeWhitelistKeep wl)

/-- `performTypeNegotiation` (index.js lines 347-409) together with the final
state of the caller's client tuple list (second component), which the
source's in-place `q` mutation may have changed. -/
def performTypeNegotiationFull (clientValues serverValues : List ValueTuple)
    (whitelist : Option (List String)) :
    Option ValueTuple × List ValueTuple :=
  ((typeFiltered clientValues serverValues whitelist).head?.map
      NegotiationResult.server,
    (typeNegotiated clientValues serverValues).2)

/-- `performTypeNegotiation` (index.js lines 347-409): the server tuple of the
top-ranked surviving result, or `null`. -/
def performTypeNegotiation (clientValues serverValues : List ValueTuple)
    (whitelist : Option (List String)) : Option ValueTuple :=
  (performTypeNegotiationFull clientValues serverValues whitelist).1

/-! ## Typemap parsing (index.js lines 476-552) -/

/-- One entry of a typemap (index.js lines 476-481).  `uri` is `Option`
because `new TypeMapEntry()` starts with an `undefined` uri. -/
structure TypeMapEntry where
  uri : Option String
  headers : JSMap (List ValueTuple)
deriving DecidableEq

/-- Parser state of `typemapParse` (index.js lines 500-502): the accumulated
entries, the entry under construction (if any), and the taint flag. -/
structure TMState where
  types : List TypeMapEntry
  entry : Option TypeMapEntry
  entryBad : Bool
deriving DecidableEq

/-- Truthiness test `entry.uri && entry.uri.length > 0` (index.js line 505). -/
def uriOk : Option String → Bool
  | none => false
  | some u => u ≠ ""

/-- `maybeFlushEntry` (index.js lines 504-511): push the entry under
construction if it is untainted and has a non-empty uri, then reset. -/
def maybeFlushEntry (st : TMState) : TMState :=
  match st.entry with
  | none => ⟨st.types, none, false⟩
  | some e =>
      if st.entryBad = false ∧ uriOk e.uri = true then
        ⟨st.types ++ [e], none, false⟩
      else ⟨st.types, none, false⟩

/-- Processing of one non-blank, non-comment (already trimmed) line against
the entry under construction (index.js lines 527-544). -/
def typemapStepLine (types : List TypeMapEntry) (e : TypeMapEntry)
    (bad : Bool) (l : String) : TMState :=
  match splitFirstColon l with
  | none => ⟨types, some e, true⟩
  | some (rawName, rawRest) =>
      if jsToLower (jsTrim rawName) = "uri" then
        ⟨types, some ⟨some (jsTrim (jsTrim rawRest)), e.headers⟩, bad⟩
      else
        ⟨types,
          some ⟨e.uri,
            e.headers.set (jsToLower (jsTrim rawName))
              ((splitHeaderValue (jsTrim rawRest)).map parseValueTuple)⟩,
          bad⟩

/-- Processing of one trimmed line (index.js lines 514-545): comments are
skipped, a blank line flushes, anything else is handed to
`typemapStepLine` (creating the entry if needed). -/
def typemapStepTrimmed (st : TMState) (l : String) : TMState :=
  if l.data.head? = some '#' then st
  else if l = "" then maybeFlushEntry st
  else typemapStepLine st.types (st.entry.getD ⟨none, []⟩) st.entryBad l

/-- Processing of one raw line. -/
def typemapStep (st : TMState) (line : String) : TMState :=
  typemapStepTrimmed st (jsTrim line)

/-- The body of `typemapParse` on a list of lines: fold the line step over an
initial empty state and flush the final entry at end of input (index.js lines
513-548). -/
def typemapLines (lines : List String) : List TypeMapEntry :=
  (maybeFlushEntry (lines.foldl typemapStep ⟨[], none, false⟩)).types

/-- `typemapParse` (index.js lines 497-551). -/
def typemapParse (str : String) : List TypeMapEntry :=
  typemapLines (jsSplitChar str '\n')

/-! ## General lemmas about the negotiation engine -/

theorem serverStep_eq_append (m : ValueTuple → ValueTuple → Bool)
    (cmp : ValueTuple → ValueTuple → ValueTuple → ℚ) (cs : List ValueTuple)
    (scores : List NegotiationResult) (sv : ValueTuple) :
    serverStep m cmp cs scores sv =
      scores ++ (serverResult m cmp cs sv).toList := by
  unfold serverStep serverResult
  cases bestClientValue cmp sv (cs.filter (fun cv => m sv cv)) with
  | none => simp [serverStepEmit]
  | some cv =>
      by_cases h : cv.q * sv.q ≤ 0 <;> simp [serverStepEmit, h]

theorem foldl_serverStep (m : ValueTuple → ValueTuple → Bool)
    (cmp : ValueTuple → ValueTuple → ValueTuple → ℚ) (cs : List ValueTuple) :
    ∀ (ss : List ValueTuple) (acc : List NegotiationResult),
      ss.foldl (serverStep m cmp cs) acc =
        acc ++ ss.filterMap (serverResult m cmp cs)
  | [], acc => by simp
  | sv :: ss, acc => by
      rw [List.foldl_cons, foldl_serverStep m cmp cs ss, serverStep_eq_append,
        List.filterMap_cons]
      cases serverResult m cmp cs sv <;> simp

theorem performNegotiation_eq_sort_filterMap (cs ss : List ValueTuple)
    (m : ValueTuple → ValueTuple → Bool)
    (cmp : ValueTuple → ValueTuple → ValueTuple → ℚ) :
    performNegotiation cs ss m cmp =
      List.insertionSort byScoreDesc (ss.filterMap (serverResult m cmp cs)) := by
  unfold performNegotiation
  rw [foldl_serverStep]
  rfl

theorem sorted_insertionSort_byScoreDesc (l : List NegotiationResult) :
    List.Sorted byScoreDesc (List.insertionSort byScoreDesc l) := by
  haveI : IsTotal NegotiationResult byScoreDesc :=
    ⟨fun a b => le_total b.score a.score⟩
  haveI : IsTrans NegotiationResult byScoreDesc :=
    ⟨fun _ _ _ h1 h2 => le_trans h2 h1⟩
  exact List.sorted_insertionSort byScoreDesc l

section ConcreteEvaluation
attribute [local semireducible] Rat.ofScientific Rat.mul Rat.add Rat.sub Rat.inv

/-- C4: `performNegotiation` always returns the whole ranked sequence, sorted
descending by score and containing exactly the scored contribution of every
server tuple whose best matching client scores positively (never only the
single best); on the spec's example the two results `(b, 0.9)` and `(c, 0.8)`
come back in that order. -/
theorem performNegotiation_full_ranking (cs ss : List ValueTuple)
    (m : ValueTuple → ValueTuple → Bool)
    (cmp : ValueTuple → ValueTuple → ValueTuple → ℚ) :
    List.Sorted byScoreDesc (performNegotiation cs ss m cmp) ∧
    List.Perm (performNegotiation cs ss m cmp)
      (ss.filterMap (serverResult m cmp cs)) ∧
    performNegotiation
      [⟨some "a", [("q", PValue.num 1)]⟩, ⟨some "b", [("q", PValue.num 1)]⟩,
        ⟨some "c", [("q", PValue.num 0.8)]⟩]
      [⟨some "b", [("q", PValue.num 0.9)]⟩, ⟨some "c", [("q", PValue.num 1)]⟩]
      wildcardValueMatch wildcardValueCompare =
      [⟨⟨some "b", [("q", PValue.num 0.9)]⟩, ⟨some "b", [("q", PValue.num 1)]⟩, 0.9⟩,
        ⟨⟨some "c", [("q", PValue.num 1)]⟩, ⟨some "c", [("q", PValue.num 0.8)]⟩, 0.8⟩] := by
  refine ⟨?_, ?_, by decide⟩
  · rw [performNegotiation_eq_sort_filterMap]
    exact sorted_insertionSort_byScoreDesc _
  · rw [performNegotiation_eq_sort_filterMap]
    exact List.perm_insertionSort byScoreDesc _

/-- C7: `performNegotiation` returns the empty sequence (and, being a total
function, never an error) whenever every server tuple either has no matching
client or its selected best matching client `cv` scores `cv.q * sv.q ≤ 0`. -/
theorem performNegotiation_empty_of_nonpositive (cs ss : List ValueTuple)
    (m : ValueTuple → ValueTuple → Bool)
    (cmp : ValueTuple → ValueTuple → ValueTuple → ℚ)
    (h : ∀ sv ∈ ss, ∀ cv,
      bestClientValue cmp sv (cs.filter (fun c => m sv c)) = some cv →
        cv.q * sv.q ≤ 0) :
    performNegotiation cs ss m cmp = [] := by
  rw [performNegotiation_eq_sort_filterMap]
  have hnil : ss.filterMap (serverResult m cmp cs) = [] := by
    rw [List.filterMap_eq_nil_iff]
    intro sv hsv
    unfold serverResult
    cases hb : bestClientValue cmp sv (cs.filter (fun c => m sv c)) with
    | none => rfl
    | some cv => simp [h sv hsv cv hb]
  rw [hnil]
  rfl

/-- Witness for C7: a single matching pair whose server tuple has `q = 0`
yields the empty sequence. -/
theorem performNegotiation_empty_of_nonpositive_witness :
    performNegotiation [⟨some "a", []⟩] [⟨some "a", [("q", PValue.num 0)]⟩]
      wildcardValueMatch wildcardValueCompare = [] := by
  apply performNegotiation_empty_of_nonpositive
  intro sv hsv cv hcv
  simp only [List.mem_singleton] at hsv
  subst hsv
  have hb : bestClientValue wildcardValueCompare
      ⟨some "a", [("q", PValue.num 0)]⟩
      (List.filter (fun c => wildcardValueMatch ⟨some "a", [("q", PValue.num 0)]⟩ c)
        [⟨some "a", []⟩]) = some ⟨some "a", []⟩ := by decide
  rw [hb] at hcv
  cases hcv
  decide

end ConcreteEvaluation

/-- C6: `parameterMatch(s, c)` is true exactly when every non-`q` server
parameter whose key the client also carries has the identical value on the
client, and the client carries no non-`q` key absent from the server's
parameter set; `q` entries on either side never affect the result. -/
theorem parameterMatch_iff (st ct : ValueTuple) :
    parameterMatch st ct = true ↔
      ((∀ p ∈ st.properties, p.1 ≠ "q" → JSMap.has ct.properties p.1 = true →
          JSMap.get ct.properties p.1 = some p.2) ∧
        (∀ p ∈ ct.properties, p.1 ≠ "q" → JSMap.has st.properties p.1 = true)) := by
  simp only [parameterMatch, Bool.and_eq_true, List.all_eq_true, Bool.or_eq_true,
    beq_iff_eq, Bool.not_eq_true']
  constructor
  · rintro ⟨h1, h2⟩
    refine ⟨fun p hp hq hc => ?_, fun p hp hq => ?_⟩
    · rcases h1 p hp with (h | h) | h
      · exact absurd h hq
      · rw [hc] at h
        exact absurd h (by simp)
      · exact h
    · rcases h2 p hp with h | h
      · exact absurd h hq
      · exact h
  · rintro ⟨h1, h2⟩
    refine ⟨fun p hp => ?_, fun p hp => ?_⟩
    · by_cases hq : p.1 = "q"
      · exact Or.inl (Or.inl hq)
      · cases hhc : JSMap.has ct.properties p.1 with
        | false => exact Or.inl (Or.inr rfl)
        | true => exact Or.inr (h1 p hp hq hhc)
    · by_cases hq : p.1 = "q"
      · exact Or.inl hq
      · exact Or.inr (h2 p hp hq)

theorem wildcardValueCompare_lit_star (st : ValueTuple) (a b : ValueTuple)
    (ha : a.value ≠ some "*") (hb : b.value = some "*") :
    wildcardValueCompare st a b = -1 := by
  simp [wildcardValueCompare, ha, hb]

theorem wildcardValueCompare_star_lit (st : ValueTuple) (a b : ValueTuple)
    (ha : a.value = some "*") (hb : b.value ≠ some "*") :
    wildcardValueCompare st a b = 1 := by
  simp [wildcardValueCompare, ha, hb]

theorem wildcardValueCompare_lit_lit (st : ValueTuple) (a b : ValueTuple)
    (ha : a.value ≠ some "*") (hb : b.value ≠ some "*") :
    wildcardValueCompare st a b = parameterCompare st a b := by
  simp [wildcardValueCompare, ha, hb]

theorem wildcardValueCompare_star_star (st : ValueTuple) (a b : ValueTuple)
    (ha : a.value = some "*") (hb : b.value = some "*") :
    wildcardValueCompare st a b = parameterCompare st a b := by
  simp [wildcardValueCompare, ha, hb]

theorem parameterCompare_nil_nil (st : ValueTuple) (x y : Option String) :
    parameterCompare st ⟨x, []⟩ ⟨y, []⟩ = 0 := by
  simp [parameterCompare, sharedKeyCount, ValueTuple.q, JSMap.get, qOfProp]

theorem parameterCompare_props (st a b : ValueTuple) (x y : Option String) :
    parameterCompare st ⟨x, a.properties⟩ ⟨y, b.properties⟩ =
      parameterCompare st a b := rfl

theorem typeComponentCompare_val (sv : Option String) (ta tb : String) :
    wildcardValueCompare ⟨sv, []⟩ ⟨some ta, []⟩ ⟨some tb, []⟩ =
      (if ta = "*" ∧ ¬tb = "*" then 1
       else if ¬ta = "*" ∧ tb = "*" then -1
       else 0) := by
  by_cases h1 : ta = "*" <;> by_cases h2 : tb = "*"
  · rw [wildcardValueCompare_star_star _ _ _ (by simp [h1]) (by simp [h2]),
      parameterCompare_nil_nil]
    simp [h1, h2]
  · rw [wildcardValueCompare_star_lit _ _ _ (by simp [h1]) (by simp [h2])]
    simp [h1, h2]
  · rw [wildcardValueCompare_lit_star _ _ _ (by simp [h1]) (by simp [h2])]
    simp [h1, h2]
  · rw [wildcardValueCompare_lit_lit _ _ _ (by simp [h1]) (by simp [h2]),
      parameterCompare_nil_nil]
    simp [h1, h2]

theorem subComponentCompare_val (st a b : ValueTuple) (ua ub : String) :
    wildcardValueCompare st ⟨some ua, a.properties⟩ ⟨some ub, b.properties⟩ =
      (if ua = "*" ∧ ¬ub = "*" then 1
       else if ¬ua = "*" ∧ ub = "*" then -1
       else parameterCompare st a b) := by
  by_cases h1 : ua = "*" <;> by_cases h2 : ub = "*"
  · rw [wildcardValueCompare_star_star _ _ _ (by simp [h1]) (by simp [h2]),
      parameterCompare_props]
    simp [h1, h2]
  · rw [wildcardValueCompare_star_lit _ _ _ (by simp [h1]) (by simp [h2])]
    simp [h1, h2]
  · rw [wildcardValueCompare_lit_star _ _ _ (by simp [h1]) (by simp [h2])]
    simp [h1, h2]
  · rw [wildcardValueCompare_lit_lit _ _ _ (by simp [h1]) (by simp [h2]),
      parameterCompare_props]
    simp [h1, h2]

theorem mediaRange_by_components (st a b : ValueTuple) (ta ua tb ub : String)
    (hat : valComponent a.value 0 = some ta) (hau : valComponent a.value 1 = some ua)
    (hbt : valComponent b.value 0 = some tb) (hbu : valComponent b.value 1 = some ub) :
    mediaRangeValueCompare st a b =
      (if ta = "*" ∧ ¬tb = "*" then 1
       else if ¬ta = "*" ∧ tb = "*" then -1
       else if ua = "*" ∧ ¬ub = "*" then 1
       else if ¬ua = "*" ∧ ub = "*" then -1
       else parameterCompare st a b) := by
  unfold mediaRangeValueCompare
  rw [hat, hau, hbt, hbu, typeComponentCompare_val, subComponentCompare_val]
  by_cases h1 : ta = "*" <;> by_cases h2 : tb = "*" <;> simp [h1, h2]

def mrClassRank (t u : String) : ℕ :=
  (if t = "*" then 2 else 0) + (if u = "*" then 1 else 0)

/-- C5: for a literal server media range `t/u` and client media ranges over
the same base pair, `mediaRangeValueCompare` strictly orders the wildcard
classes `t/u > t/* > */u > */*` (lower `mrClassRank` sorts first): it is
negative when `a`'s class strictly precedes `b`'s, positive in the reverse
case, and within one class it equals `parameterCompare` (parameter
specificity, then `q`). -/
theorem mediaRangeValueCompare_class_order (st a b : ValueTuple)
    (t u ta ua tb ub : String)
    (ht : t ≠ "*") (hu : u ≠ "*")
    (hat : valComponent a.value 0 = some ta) (hau : valComponent a.value 1 = some ua)
    (hbt : valComponent b.value 0 = some tb) (hbu : valComponent b.value 1 = some ub)
    (hta : ta = t ∨ ta = "*") (hua : ua = u ∨ ua = "*")
    (htb : tb = t ∨ tb = "*") (hub : ub = u ∨ ub = "*") :
    (mrClassRank ta ua < mrClassRank tb ub → mediaRangeValueCompare st a b < 0) ∧
    (mrClassRank tb ub < mrClassRank ta ua → 0 < mediaRangeValueCompare st a b) ∧
    (mrClassRank ta ua = mrClassRank tb ub →
      mediaRangeValueCompare st a b = parameterCompare st a b) := by
  have hm := mediaRange_by_components st a b ta ua tb ub hat hau hbt hbu
  rcases hta with rfl | rfl <;> rcases htb with rfl | rfl <;>
    rcases hua with rfl | rfl <;> rcases hub with rfl | rfl <;>
      simp_all [mrClassRank]

/-- Witness for C5: with server `text/plain`, the exact client `text/plain`
(class rank 0) strictly precedes the subtype wildcard `text/*` (class rank
1). -/
theorem mediaRangeValueCompare_class_order_witness :
    mediaRangeValueCompare ⟨some "text/plain", []⟩ ⟨some "text/plain", []⟩
      ⟨some "text/*", []⟩ < 0 :=
  (mediaRangeValueCompare_class_order ⟨some "text/plain", []⟩
      ⟨some "text/plain", []⟩ ⟨some "text/*", []⟩ "text" "plain" "text" "plain"
      "text" "*" (by decide) (by decide) (by decide) (by decide) (by decide)
      (by decide) (by decide) (by decide) (by decide) (by decide)).1 (by decide)

section ConcreteNegotiation
attribute [local semireducible] Rat.ofScientific Rat.mul Rat.add Rat.sub Rat.inv

/-- C1, counterexample: with clients `[gzip;q=0.5]` and servers
`[identity;q=1, gzip;q=1]`, `performEncodingNegotiation` returns the gzip
server tuple — not the identity tuple that prepend-identity semantics would
select. -/
theorem performEncodingNegotiation_example_not_identity :
    performEncodingNegotiation [⟨some "gzip", [("q", PValue.num 0.5)]⟩]
        [⟨some "identity", [("q", PValue.num 1)]⟩,
          ⟨some "gzip", [("q", PValue.num 1)]⟩] none =
      some ⟨some "gzip", [("q", PValue.num 1)]⟩ ∧
    performEncodingNegotiation [⟨some "gzip", [("q", PValue.num 0.5)]⟩]
        [⟨some "identity", [("q", PValue.num 1)]⟩,
          ⟨some "gzip", [("q", PValue.num 1)]⟩] none ≠
      some ⟨some "identity", [("q", PValue.num 1)]⟩ := by decide

/-- C1, amended: for a non-empty client list in which no tuple matches the
implicit identity token, identity is only a fallback: when the first
negotiation pass has results, its top result's server tuple is returned, and
only when the first pass is empty is negotiation retried with
`[identity;q=1]` alone; on the claim's example the gzip server tuple
therefore wins with score `0.5`. -/
theorem performEncodingNegotiation_identity_fallback (cs ss : List ValueTuple)
    (_hne : cs ≠ []) (h2 : hasIdentityIn cs = false) :
    (encodingFirstPass cs ss none ≠ [] →
      performEncodingNegotiation cs ss none =
        (encodingFirstPass cs ss none).head?.map NegotiationResult.server) ∧
    (encodingFirstPass cs ss none = [] →
      performEncodingNegotiation cs ss none =
        (performNegotiation [IDENTITY] ss wildcardValueMatch
            wildcardValueCompare).head?.map NegotiationResult.server) ∧
    performEncodingNegotiation [⟨some "gzip", [("q", PValue.num 0.5)]⟩]
      [⟨some "identity", [("q", PValue.num 1)]⟩,
        ⟨some "gzip", [("q", PValue.num 1)]⟩] none =
      some ⟨some "gzip", [("q", PValue.num 1)]⟩ := by
  refine ⟨?_, ?_, by decide⟩
  · intro hne
    have hcond :
        ¬((encodingFirstPass cs ss none).isEmpty = true ∧
          hasIdentityIn cs = false) := by
      rintro ⟨ha, -⟩
      exact hne (List.isEmpty_iff.mp ha)
    unfold performEncodingNegotiation encodingNegotiated
    rw [if_neg hcond]
  · intro he
    unfold performEncodingNegotiation encodingNegotiated
    rw [if_pos ⟨by simp [he], h2⟩]

/-- Witness for C1's amended theorem, at the claim's example input. -/
theorem performEncodingNegotiation_identity_fallback_witness :
    performEncodingNegotiation [⟨some "gzip", [("q", PValue.num 0.5)]⟩]
      [⟨some "identity", [("q", PValue.num 1)]⟩,
        ⟨some "gzip", [("q", PValue.num 1)]⟩] none =
      some ⟨some "gzip", [("q", PValue.num 1)]⟩ :=
  (performEncodingNegotiation_identity_fallback
      [⟨some "gzip", [("q", PValue.num 0.5)]⟩]
      [⟨some "identity", [("q", PValue.num 1)]⟩,
        ⟨some "gzip", [("q", PValue.num 1)]⟩]
      (by decide) (by decide)).2.2

/-- C3: when no client value carries an explicit `q`, the transform gives a
full wildcard `*/*` the default weight `0.01` and a subtype wildcard the
default weight `0.02`, the active comparator ranks through that transform,
and on the claim's two scenarios `performTypeNegotiation` picks `text/html`
against `text/plain;q=0.009` but `text/plain` against `text/plain;q=0.011`. -/
theorem performTypeNegotiation_wildcard_default_weights :
    transform ⟨some "*/*", []⟩ = ⟨some "*/*", [("q", PValue.num 0.01)]⟩ ∧
    transform ⟨some "text/*", []⟩ = ⟨some "text/*", [("q", PValue.num 0.02)]⟩ ∧
    (∀ st a b : ValueTuple, typedComparator true st a b =
      mediaRangeValueCompare st (transform a) (transform b)) ∧
    performTypeNegotiation [⟨some "text/plain", []⟩, ⟨some "*/*", []⟩]
      [⟨some "text/plain", [("q", PValue.num 0.009)]⟩, ⟨some "text/html", []⟩]
      none = some ⟨some "text/html", []⟩ ∧
    performTypeNegotiation [⟨some "text/plain", []⟩, ⟨some "*/*", []⟩]
      [⟨some "text/plain", [("q", PValue.num 0.011)]⟩, ⟨some "text/html", []⟩]
      none = some ⟨some "text/plain", [("q", PValue.num 0.011)]⟩ :=
  ⟨by decide, by decide, fun st a b => rfl, by decide, by decide⟩

/-- C10: with a whitelist, `performTypeNegotiation` filters the ranked
results — a wildcard-matched result survives only if its server value is
whitelisted, a result matched by a fully literal client value always
survives — and returns the top surviving server tuple, `null` exactly when
nothing survives; on the repo's example the non-whitelisted wildcard-derived
top result `image/jpeg` is dropped in favour of `image/bmp`. -/
theorem performTypeNegotiation_whitelist_behavior (cs ss : List ValueTuple)
    (wl : List String) :
    performTypeNegotiation cs ss (some wl) =
      ((typeNegotiated cs ss).1.filter (typeWhitelistKeep wl)).head?.map
        NegotiationResult.server ∧
    (∀ nv ∈ (typeNegotiated cs ss).1,
      valComponent nv.client.value 0 ≠ some "*" →
      valComponent nv.client.value 1 ≠ some "*" →
      nv ∈ (typeNegotiated cs ss).1.filter (typeWhitelistKeep wl)) ∧
    (performTypeNegotiation cs ss (some wl) = none ↔
      (typeNegotiated cs ss).1.filter (typeWhitelistKeep wl) = []) ∧
    performTypeNegotiation [⟨some "image/webp", []⟩, ⟨some "image/*", []⟩]
      [⟨some "image/bmp", [("q", PValue.num 0.8)]⟩,
        ⟨some "image/jpeg", [("q", PValue.num 0.9)]⟩] (some ["image/bmp"]) =
      some ⟨some "image/bmp", [("q", PValue.num 0.8)]⟩ ∧
    performTypeNegotiation [⟨some "image/webp", []⟩, ⟨some "image/*", []⟩]
      [⟨some "image/bmp", [("q", PValue.num 0.8)]⟩,
        ⟨some "image/jpeg", [("q", PValue.num 0.9)]⟩] (some []) = none ∧
    (typeNegotiated [⟨some "image/webp", []⟩, ⟨some "image/*", []⟩]
        [⟨some "image/bmp", [("q", PValue.num 0.8)]⟩,
          ⟨some "image/jpeg", [("q", PValue.num 0.9)]⟩]).1.head?.map
        NegotiationResult.server =
      some ⟨some "image/jpeg", [("q", PValue.num 0.9)]⟩ := by
  refine ⟨rfl, ?_, ?_, by decide, by decide, by decide⟩
  · intro nv hnv h0 h1
    rw [List.mem_filter]
    exact ⟨hnv, by simp [typeWhitelistKeep, h0, h1]⟩
  · show ((typeNegotiated cs ss).1.filter (typeWhitelistKeep wl)).head?.map
        NegotiationResult.server = none ↔ _
    simp [Option.map_eq_none', List.head?_eq_none_iff]

/-- Witness for C10: a result matched by a fully literal client value
survives filtering against the empty whitelist. -/
theorem performTypeNegotiation_whitelist_behavior_witness :
    (⟨⟨some "image/webp", []⟩, ⟨some "image/webp", []⟩, 1⟩ : NegotiationResult) ∈
      (typeNegotiated [⟨some "image/webp", []⟩]
          [⟨some "image/webp", []⟩]).1.filter (typeWhitelistKeep []) :=
  (performTypeNegotiation_whitelist_behavior [⟨some "image/webp", []⟩]
      [⟨some "image/webp", []⟩] []).2.1
    ⟨⟨some "image/webp", []⟩, ⟨some "image/webp", []⟩, 1⟩ (by decide) (by decide)
    (by decide)

end ConcreteNegotiation

theorem JSMap.get_set_self {β : Type} (m : JSMap β) (k : String) (v : β) :
    JSMap.get (JSMap.set m k v) k = some v := by
  induction m with
  | nil => simp [JSMap.set, JSMap.get]
  | cons p rest ih =>
      by_cases hk : p.1 = k
      · simp [JSMap.set, JSMap.get, hk]
      · obtain ⟨k', w⟩ := p
        simp only at hk
        simp [JSMap.set, JSMap.get, hk, ih]

theorem transform_idem (vt : ValueTuple) : transform (transform vt) = transform vt := by
  unfold transform
  by_cases h1 : vt.properties.has "q" = true
  · simp [h1]
  · simp only [h1]
    by_cases h2 : valComponent vt.value 0 ≠ some "*" ∧ valComponent vt.value 1 ≠ some "*"
    · simp [h1, h2]
    · simp only [if_neg h2, if_neg h1, Bool.false_eq_true, if_false]
      have hset : JSMap.has
          (JSMap.set vt.properties "q"
            (PValue.num (if valComponent vt.value 0 = some "*" then 0.01 else 0.02))) "q" = true := by
        simp [JSMap.has, JSMap.get_set_self]
      simp [hset]

theorem typeStepEmit_clients (sc : List NegotiationResult) (cl : List ValueTuple)
    (sv : ValueTuple) (o : Option ValueTuple) :
    (typeStepEmit sc cl sv o).2 = cl := by
  cases o with
  | none => rfl
  | some cv =>
      unfold typeStepEmit
      split <;> first | rfl | (split <;> rfl)

theorem typeStepScore_clients (useT : Bool) (sc : List NegotiationResult)
    (cl : List ValueTuple) (sv : ValueTuple) (m : List ValueTuple) :
    (typeStepScore useT sc cl sv m).2 = cl :=
  typeStepEmit_clients sc cl sv _

theorem typeStep_clients_cases (useT : Bool) (sc : List NegotiationResult)
    (cl : List ValueTuple) (sv : ValueTuple) :
    (typeStep useT (sc, cl) sv).2 = cl ∨
      (typeStep useT (sc, cl) sv).2 = mutateClients sv cl := by
  unfold typeStep typeStepCore
  split
  · exact Or.inl rfl
  · split
    · exact Or.inr (typeStepScore_clients ..)
    · exact Or.inl (typeStepScore_clients ..)

theorem mutateClients_rel (sv : ValueTuple) (cs0 cl : List ValueTuple)
    (h : List.Forall₂ (fun o f => f = o ∨ f = transform o) cs0 cl) :
    List.Forall₂ (fun o f => f = o ∨ f = transform o) cs0 (mutateClients sv cl) := by
  unfold mutateClients
  rw [List.forall₂_map_right_iff]
  refine h.imp ?_
  intro o f hr
  rcases hr with rfl | rfl
  · split <;> simp
  · split <;> simp [transform_idem]

theorem foldl_typeStep_forall2 (useT : Bool) :
    ∀ (ss : List ValueTuple) (sc : List NegotiationResult)
      (cl cs0 : List ValueTuple),
      List.Forall₂ (fun o f => f = o ∨ f = transform o) cs0 cl →
      List.Forall₂ (fun o f => f = o ∨ f = transform o) cs0
        (List.foldl (typeStep useT) (sc, cl) ss).2
  | [], sc, cl, cs0, h => h
  | sv :: ss, sc, cl, cs0, h => by
      rw [List.foldl_cons]
      cases hstep : typeStep useT (sc, cl) sv with
      | mk sc' cl' =>
          apply foldl_typeStep_forall2 useT ss sc' cl' cs0
          have hc := typeStep_clients_cases useT sc cl sv
          rw [hstep] at hc
          rcases hc with hc | hc
          · rw [show cl' = (sc', cl').2 from rfl, ← hstep]
            rw [hstep]
            simp only at hc
            rw [hc]
            exact h
          · simp only at hc
            rw [hc]
            exact mutateClients_rel sv cs0 cl h

theorem typeStep_clients_noT (sc : List NegotiationResult)
    (cl : List ValueTuple) (sv : ValueTuple) :
    (typeStep false (sc, cl) sv).2 = cl := by
  unfold typeStep typeStepCore
  split
  · rfl
  · split
    · rename_i hcond
      exact absurd hcond.1 (by simp)
    · exact typeStepScore_clients ..

theorem foldl_typeStep_noT :
    ∀ (ss : List ValueTuple) (sc : List NegotiationResult) (cl : List ValueTuple),
      (List.foldl (typeStep false) (sc, cl) ss).2 = cl
  | [], _, _ => rfl
  | sv :: ss, sc, cl => by
      rw [List.foldl_cons]
      cases hstep : typeStep false (sc, cl) sv with
      | mk sc' cl' =>
          have hc := typeStep_clients_noT sc cl sv
          rw [hstep] at hc
          simp only at hc
          rw [foldl_typeStep_noT ss sc' cl', hc]

section MutationFacts
attribute [local semireducible] Rat.ofScientific Rat.mul Rat.add Rat.sub Rat.inv

/-- C2, counterexample: `performTypeNegotiation([text/plain, */*],
[text/plain;q=0.9])` writes `q = 0.01` into the properties map of the
caller's `*/*` client tuple: the final state of the client list differs from
the input. -/
theorem performTypeNegotiation_mutates_client_input :
    (performTypeNegotiationFull [⟨some "text/plain", []⟩, ⟨some "*/*", []⟩]
        [⟨some "text/plain", [("q", PValue.num 0.9)]⟩] none).2 ≠
      [⟨some "text/plain", []⟩, ⟨some "*/*", []⟩] ∧
    (performTypeNegotiationFull [⟨some "text/plain", []⟩, ⟨some "*/*", []⟩]
        [⟨some "text/plain", [("q", PValue.num 0.9)]⟩] none).2 =
      [⟨some "text/plain", []⟩, ⟨some "*/*", [("q", PValue.num 0.01)]⟩] := by
  decide

/-- C2, amended: `performTypeNegotiation` may mutate caller-supplied client
tuples, but only by applying the default wildcard-weight transform in place
(each final client tuple is the original or its `transform`, which at most
inserts a default `q`); when some client value carries an explicit `q` the
transform is inactive and the client list is returned untouched.  Server
tuples are never modified. -/
theorem performTypeNegotiation_mutation_bound (cs ss : List ValueTuple)
    (wl : Option (List String)) (h : cs ≠ []) :
    List.Forall₂ (fun o f => f = o ∨ f = transform o) cs
      (performTypeNegotiationFull cs ss wl).2 ∧
    (cs.any (fun vt => vt.properties.has "q") = true →
      (performTypeNegotiationFull cs ss wl).2 = cs) := by
  have hbase : typeClientBase cs = cs := by
    unfold typeClientBase
    rw [if_neg]
    simp [h]
  have h2eq : (performTypeNegotiationFull cs ss wl).2 =
      (List.foldl (typeStep (typeUseTransform cs)) ([], typeClientBase cs) ss).2 := rfl
  constructor
  · rw [h2eq, hbase]
    exact foldl_typeStep_forall2 (typeUseTransform cs) ss [] cs cs
      (List.forall₂_same.mpr (fun o _ => Or.inl rfl))
  · intro hq
    have huseT : typeUseTransform cs = false := by
      unfold typeUseTransform
      rw [hbase, hq]
      rfl
    rw [h2eq, huseT, hbase, foldl_typeStep_noT]

/-- Witness for C2's amended theorem at the counterexample input. -/
theorem performTypeNegotiation_mutation_bound_witness :
    List.Forall₂ (fun o f => f = o ∨ f = transform o)
      [⟨some "text/plain", []⟩, ⟨some "*/*", []⟩]
      (performTypeNegotiationFull [⟨some "text/plain", []⟩, ⟨some "*/*", []⟩]
        [⟨some "text/plain", [("q", PValue.num 0.9)]⟩] none).2 :=
  (performTypeNegotiation_mutation_bound
      [⟨some "text/plain", []⟩, ⟨some "*/*", []⟩]
      [⟨some "text/plain", [("q", PValue.num 0.9)]⟩] none (by decide)).1

end MutationFacts

theorem maybeFlushEntry_uriOk (st : TMState)
    (h : ∀ e ∈ st.types, uriOk e.uri = true) :
    ∀ e ∈ (maybeFlushEntry st).types, uriOk e.uri = true := by
  cases st with
  | mk types entry bad =>
      cases entry with
      | none => exact h
      | some e0 =>
          unfold maybeFlushEntry
          dsimp only at h ⊢
          split
          · rename_i hg
            intro e he
            rcases List.mem_append.mp he with he | he
            · exact h e he
            · rw [List.mem_singleton.mp he]
              exact hg.2
          · exact h

theorem typemapStepLine_types (types : List TypeMapEntry) (e0 : TypeMapEntry)
    (bad : Bool) (l : String) :
    (typemapStepLine types e0 bad l).types = types := by
  unfold typemapStepLine
  split
  · rfl
  · split <;> rfl

theorem typemapStep_uriOk (st : TMState) (l : String)
    (h : ∀ e ∈ st.types, uriOk e.uri = true) :
    ∀ e ∈ (typemapStep st l).types, uriOk e.uri = true := by
  unfold typemapStep typemapStepTrimmed
  split
  · exact h
  · split
    · exact maybeFlushEntry_uriOk st h
    · rw [typemapStepLine_types]
      exact h

theorem foldl_typemapStep_uriOk :
    ∀ (lines : List String) (st : TMState),
      (∀ e ∈ st.types, uriOk e.uri = true) →
      ∀ e ∈ (lines.foldl typemapStep st).types, uriOk e.uri = true
  | [], st, h => h
  | l :: ls, st, h => by
      rw [List.foldl_cons]
      exact foldl_typemapStep_uriOk ls (typemapStep st l) (typemapStep_uriOk st l h)

theorem typemapStep_nonblank_types (st : TMState) (l : String)
    (hl : jsTrim l ≠ "") : (typemapStep st l).types = st.types := by
  unfold typemapStep typemapStepTrimmed
  by_cases hc : (jsTrim l).data.head? = some '#'
  · rw [if_pos hc]
  · rw [if_neg hc, if_neg hl]
    exact typemapStepLine_types ..

theorem typemapStep_nonblank_bad (st : TMState) (l : String)
    (hl : jsTrim l ≠ "") (hb : st.entryBad = true) :
    (typemapStep st l).entryBad = true := by
  unfold typemapStep typemapStepTrimmed
  by_cases hc : (jsTrim l).data.head? = some '#'
  · rw [if_pos hc]
    exact hb
  · rw [if_neg hc, if_neg hl]
    unfold typemapStepLine
    split
    · rfl
    · split <;> exact hb

theorem typemapStep_badline (st : TMState) (l : String)
    (hl : jsTrim l ≠ "") (hc : (jsTrim l).data.head? ≠ some '#')
    (hcol : splitFirstColon (jsTrim l) = none) :
    (typemapStep st l).entryBad = true := by
  unfold typemapStep typemapStepTrimmed
  rw [if_neg hc, if_neg hl]
  unfold typemapStepLine
  rw [hcol]

theorem foldl_typemapStep_nonblank_types :
    ∀ (ls : List String) (st : TMState),
      (∀ l ∈ ls, jsTrim l ≠ "") →
      (ls.foldl typemapStep st).types = st.types
  | [], _, _ => rfl
  | l :: ls, st, h => by
      rw [List.foldl_cons,
        foldl_typemapStep_nonblank_types ls _
          (fun x hx => h x (List.mem_cons_of_mem l hx)),
        typemapStep_nonblank_types st l (h l (List.mem_cons_self _ _))]

theorem foldl_typemapStep_bad_mono :
    ∀ (ls : List String) (st : TMState),
      (∀ l ∈ ls, jsTrim l ≠ "") → st.entryBad = true →
      (ls.foldl typemapStep st).entryBad = true
  | [], _, _, hb => hb
  | l :: ls, st, h, hb => by
      rw [List.foldl_cons]
      exact foldl_typemapStep_bad_mono ls _
        (fun x hx => h x (List.mem_cons_of_mem l hx))
        (typemapStep_nonblank_bad st l (h l (List.mem_cons_self _ _)) hb)

theorem foldl_typemapStep_tainted :
    ∀ (ls : List String) (st : TMState),
      (∀ l ∈ ls, jsTrim l ≠ "") →
      (∃ l ∈ ls, (jsTrim l).data.head? ≠ some '#' ∧
        splitFirstColon (jsTrim l) = none) →
      (ls.foldl typemapStep st).entryBad = true
  | [], _, _, hex => by simp at hex
  | l :: ls, st, h, hex => by
      rw [List.foldl_cons]
      rcases hex with ⟨x, hx, hxc, hxcol⟩
      rcases List.mem_cons.mp hx with rfl | hx
      · exact foldl_typemapStep_bad_mono ls _
          (fun y hy => h y (List.mem_cons_of_mem x hy))
          (typemapStep_badline st x (h x (List.mem_cons_self _ _)) hxc hxcol)
      · exact foldl_typemapStep_tainted ls _
          (fun y hy => h y (List.mem_cons_of_mem l hy)) ⟨x, hx, hxc, hxcol⟩

theorem maybeFlushEntry_bad (st : TMState) (hb : st.entryBad = true) :
    maybeFlushEntry st = ⟨st.types, none, false⟩ := by
  cases st with
  | mk types entry bad =>
      cases entry with
      | none => rfl
      | some e0 =>
          unfold maybeFlushEntry
          dsimp only at hb ⊢
          rw [if_neg]
          rintro ⟨hbf, -⟩
          rw [hb] at hbf
          exact absurd hbf (by simp)

/-- C8: every entry returned by `typemapParse` has a defined, non-empty
`uri`; and a block of lines containing a malformed (non-blank, non-comment,
colon-free) line taints its whole entry — the block contributes nothing to
the output, whether it is terminated by a blank line or by end of input, even
if its later lines are well-formed. -/
theorem typemapParse_uri_nonempty_and_taint :
    (∀ (s : String), ∀ e ∈ typemapParse s, ∃ u, e.uri = some u ∧ u ≠ "") ∧
    (∀ (block rest : List String),
      (∀ l ∈ block, jsTrim l ≠ "") →
      (∃ l ∈ block, (jsTrim l).data.head? ≠ some '#' ∧
        splitFirstColon (jsTrim l) = none) →
      typemapLines (block ++ "" :: rest) = typemapLines rest ∧
        typemapLines block = []) := by
  constructor
  · intro s e he
    have hok : uriOk e.uri = true := by
      have h0 : ∀ x ∈ (⟨[], none, false⟩ : TMState).types, uriOk x.uri = true := by
        simp
      exact maybeFlushEntry_uriOk _ (foldl_typemapStep_uriOk _ _ h0) e he
    cases hu : e.uri with
    | none =>
        rw [hu] at hok
        exact absurd hok (by simp [uriOk])
    | some u =>
        refine ⟨u, rfl, ?_⟩
        rw [hu] at hok
        simpa [uriOk] using hok
  · intro block rest hnb hex
    have htypes : (block.foldl typemapStep ⟨[], none, false⟩).types =
        (⟨[], none, false⟩ : TMState).types :=
      foldl_typemapStep_nonblank_types block _ hnb
    have hbad : (block.foldl typemapStep ⟨[], none, false⟩).entryBad = true :=
      foldl_typemapStep_tainted block _ hnb hex
    have hstep0 : typemapStep (block.foldl typemapStep ⟨[], none, false⟩) "" =
        (⟨[], none, false⟩ : TMState) := by
      show typemapStepTrimmed _ (jsTrim "") = _
      rw [show jsTrim "" = "" from rfl]
      unfold typemapStepTrimmed
      rw [if_neg (by decide), if_pos rfl, maybeFlushEntry_bad _ hbad]
      rw [htypes]
    constructor
    · unfold typemapLines
      rw [List.foldl_append, List.foldl_cons, hstep0]
    · unfold typemapLines
      rw [maybeFlushEntry_bad _ hbad]
      dsimp only
      exact htypes

/-- Witness for C8: applying both parts at concrete inputs (the second block
reuses the repo's own test typemap shape). -/
theorem typemapParse_uri_nonempty_and_taint_witness :
    (∃ u, (⟨some "u", []⟩ : TypeMapEntry).uri = some u ∧ u ≠ "") ∧
    (typemapLines (["URI: u1", "A"] ++ "" :: ["URI: u4"]) =
        typemapLines ["URI: u4"] ∧
      typemapLines ["URI: u1", "A"] = []) :=
  ⟨typemapParse_uri_nonempty_and_taint.1 "URI: u" ⟨some "u", []⟩ (by decide),
    typemapParse_uri_nonempty_and_taint.2 ["URI: u1", "A"] ["URI: u4"]
      (by decide) (by decide)⟩

theorem mem_splitCharList (sep : Char) :
    ∀ (cs : List Char) (piece : List Char), piece ∈ splitCharList sep cs →
      ∀ c ∈ piece, c ∈ cs ∧ c ≠ sep := by
  intro cs
  induction cs with
  | nil =>
      intro piece hp c hc
      unfold splitCharList at hp
      rw [List.mem_singleton.mp hp] at hc
      exact absurd hc (List.not_mem_nil c)
  | cons d rest ih =>
      intro piece hp c hc
      unfold splitCharList at hp
      by_cases hd : d = sep
      · rw [if_pos hd] at hp
        rcases List.mem_cons.mp hp with rfl | hp
        · exact absurd hc (List.not_mem_nil c)
        · have := ih piece hp c hc
          exact ⟨List.mem_cons_of_mem d this.1, this.2⟩
      · rw [if_neg hd] at hp
        cases hrec : splitCharList sep rest with
        | nil =>
            rw [hrec] at hp
            rw [List.mem_singleton.mp hp] at hc
            rcases List.mem_cons.mp hc with rfl | hc
            · exact ⟨List.mem_cons_self _ _, hd⟩
            · exact absurd hc (List.not_mem_nil c)
        | cons piece0 pieces =>
            rw [hrec] at hp
            rcases List.mem_cons.mp hp with rfl | hp
            · rcases List.mem_cons.mp hc with rfl | hc
              · exact ⟨List.mem_cons_self _ _, hd⟩
              · have h0 : piece0 ∈ splitCharList sep rest := by
                  rw [hrec]
                  exact List.mem_cons_self _ _
                have := ih piece0 h0 c hc
                exact ⟨List.mem_cons_of_mem d this.1, this.2⟩
            · have h0 : piece ∈ splitCharList sep rest := by
                rw [hrec]
                exact List.mem_cons_of_mem piece0 hp
              have := ih piece h0 c hc
              exact ⟨List.mem_cons_of_mem d this.1, this.2⟩

/-- C9, amended: `splitHeaderValue` removes every space character (but only
the space character `' '`, not other whitespace — see the counterexample) and
splits the remainder on `','`; no output token contains a space or a comma,
tokens are never split at `'/'` or `'*'`, and
`splitHeaderValue("a, b, c") = ["a", "b", "c"]`. -/
theorem splitHeaderValue_spec (s : String) :
    splitHeaderValue "a, b, c" = ["a", "b", "c"] ∧
    splitHeaderValue "image/a, image/*" = ["image/a", "image/*"] ∧
    (∀ tok ∈ splitHeaderValue s, ' ' ∉ tok.data ∧ ',' ∉ tok.data) := by
  refine ⟨by decide, by decide, ?_⟩
  intro tok htok
  rcases List.mem_map.mp htok with ⟨piece, hpiece, rfl⟩
  constructor
  · intro hsp
    have := (mem_splitCharList ',' _ piece hpiece ' ' hsp).1
    rcases List.mem_filter.mp this with ⟨-, habs⟩
    simp at habs
  · intro hcm
    exact (mem_splitCharList ',' _ piece hpiece ',' hcm).2 rfl

/-- Witness for C9's amended theorem: the tokens of `"x y,z"` contain neither
spaces nor commas. -/
theorem splitHeaderValue_spec_witness :
    ' ' ∉ ("xy" : String).data ∧ ',' ∉ ("xy" : String).data :=
  (splitHeaderValue_spec "x y,z").2.2 "xy" (by decide)

/-- C9, counterexample: `splitHeaderValue` does not remove all whitespace: a
tab survives, so `splitHeaderValue("a,\tb")` is `["a", "\tb"]`, not the
`["a", "b"]` that whitespace removal would produce. -/
theorem splitHeaderValue_keeps_tab :
    splitHeaderValue "a,\tb" = ["a", "\tb"] ∧
      splitHeaderValue "a,\tb" ≠ ["a", "b"] := by decide
